import Mathlib

/-!
# Verification of the legalsense rule-based document analysis pipeline

Shallow embedding of `src/lib/analysis.ts` (and the sample loader in
`src/data/samples/load-samples.ts`): the clause segmenter, entity/fact
extractor, clause classifier and risk scorer, text simplifier, risk
aggregator and the `analyzeDocument` orchestrator.  Text is modelled as
`List Char`; JavaScript's `String.prototype.includes` becomes substring
containment on character lists, regular-expression operations are encoded
as explicit character scans with the same alternation order and greediness
as the source patterns, and machine integers are `Nat`.
-/

/-- Text is modelled as a list of characters (JS strings). -/
abbrev Str := List Char

/-- Coerce a Lean string literal to the `Str` model. -/
def str (s : String) : Str := s.data

/-- JS `String.prototype.toLowerCase` (ASCII-faithful). -/
def lowerL (s : Str) : Str := s.map Char.toLower

/-- `startsWithL needle hay` : `hay` begins with `needle` (exact characters). -/
def startsWithL : Str → Str → Bool
  | [], _ => true
  | _ :: _, [] => false
  | a :: as, b :: bs => a == b && startsWithL as bs

/-- `containsSub hay needle` : JS `hay.includes(needle)` (substring containment). -/
def containsSub (hay needle : Str) : Bool :=
  match hay with
  | [] => startsWithL needle []
  | _ :: rest => startsWithL needle hay || containsSub rest needle

/-- Propositional substring containment: `needle` occurs inside `hay`. -/
def SubL (needle hay : Str) : Prop := ∃ p s, hay = p ++ needle ++ s

/-! ## Data model (`src/lib/types.ts`) -/

/-- `LanguageCode` from `types.ts`. -/
inductive LanguageCode
  | en | hi | mr
deriving DecidableEq

/-- Party roles from `types.ts`. -/
inductive PartyRole
  | Lessor | Lessee | Employer | Employee | PartyA | PartyB | Vendor | Customer | Other
deriving DecidableEq

/-- `Party` from `types.ts`. -/
structure Party where
  name : Str
  role : PartyRole
deriving DecidableEq

/-- Clause category enum from `types.ts`. -/
inductive ClauseCategory
  | Financial | Legal | Compliance | Termination | General
deriving DecidableEq

/-- Risk level enum from `types.ts`. -/
inductive RiskLevel
  | Low | Medium | High
deriving DecidableEq

/-- `Clause` from `types.ts`; `category` and `riskLevel` are optional fields. -/
structure Clause where
  id : Str
  title : Str
  originalText : Str
  simplifiedText : Str
  category : Option ClauseCategory
  riskLevel : Option RiskLevel
deriving DecidableEq

/-- `ParsedDocument` from `types.ts`. -/
structure ParsedDocument where
  id : Str
  title : Str
  language : LanguageCode
  parties : List Party
  effectiveDate : Option Str
  terminationDate : Option Str
  obligations : List Str
  clauses : List Clause
  summary : Str
  notes : Option (List Str)
deriving DecidableEq

/-- One `byCategory` entry of `RiskOverview` from `types.ts`. -/
structure CategoryScore where
  category : ClauseCategory
  score : Nat
deriving DecidableEq

/-- `RiskOverview` from `types.ts`. -/
structure RiskOverview where
  byCategory : List CategoryScore
  recommendations : List Str
deriving DecidableEq

/-- `AnalysisResult` from `types.ts`. -/
structure AnalysisResult where
  doc : ParsedDocument
  risks : RiskOverview
deriving DecidableEq

/-! ## Classifier and risk scorer (`analysis.ts` lines 5-14, 36-45, 95-103) -/

/-- `HIGH_RISK_TERMS` (`analysis.ts` line 5). -/
def HIGH_RISK_TERMS : List Str :=
  [str "penalty", str "indemnify", str "terminate immediately", str "liability",
   str "non-compete", str "arbitration", str "late fee"]

/-- `MEDIUM_RISK_TERMS` (`analysis.ts` line 14). -/
def MEDIUM_RISK_TERMS : List Str :=
  [str "auto-renew", str "exclusive", str "confidentiality", str "governing law",
   str "jurisdiction"]

/-- `tokenize` (`analysis.ts` line 36): lower-cases the text. -/
def tokenize (text : Str) : Str := lowerL text

/-- `scoreRiskForClause` (`analysis.ts` lines 40-45). -/
def scoreRiskForClause (text : Str) : RiskLevel :=
  let t := tokenize text
  if HIGH_RISK_TERMS.any (fun term => containsSub t term) then .High
  else if MEDIUM_RISK_TERMS.any (fun term => containsSub t term) then .Medium
  else .Low

/-- `categorizeClause` (`analysis.ts` lines 95-103). -/
def categorizeClause (text : Str) : ClauseCategory :=
  let t := lowerL text
  if containsSub t (str "payment") || containsSub t (str "fee") ||
     containsSub t (str "rent") || containsSub t (str "penalty") then .Financial
  else if containsSub t (str "terminate") || containsSub t (str "termination") then .Termination
  else if containsSub t (str "law") || containsSub t (str "jurisdiction") ||
          containsSub t (str "liability") || containsSub t (str "arbitration") then .Legal
  else if containsSub t (str "compliance") || containsSub t (str "regulation") ||
          containsSub t (str "confidential") then .Compliance
  else .General

/-! ## Text simplifier (`analysis.ts` lines 105-114)

`simplifyText` chains four case-insensitive, word-boundary-delimited
(`\b...\b` with the `gi` flags) literal replacements and then truncates.
`replaceWB` is the scan semantics of `String.prototype.replace` with a
global regex whose pattern is a literal word: at each position, if the
pattern matches case-insensitively and both edges sit on a `\b` word
boundary, emit the replacement and resume after the match; otherwise copy
one character.  (All four patterns begin and end with letters, so the `\b`
conditions reduce to the neighbouring original characters not being word
characters.) -/

/-- JS regex word character (`\w` = `[A-Za-z0-9_]`). -/
def wordChar (c : Char) : Bool := c.isAlphanum || c == '_'

/-- `\b` before the match: previous original character absent or not a word char. -/
def okBefore : Option Char → Bool
  | none => true
  | some c => !wordChar c

/-- `\b` after the match: next original character absent or not a word char. -/
def okAfter : Str → Bool
  | [] => true
  | c :: _ => !wordChar c

/-- Case-insensitive literal prefix test (pattern stored lower-case). -/
def ciStartsWith : Str → Str → Bool
  | [], _ => true
  | _ :: _, [] => false
  | p :: ps, c :: cs => p == c.toLower && ciStartsWith ps cs

/-- Global replace of the word `p0 :: ps` by `rep`, tracking the previous
original character for the leading word-boundary check.  The scan consumes at
least one character per step, so it is driven by a fuel argument (structural
recursion, so the kernel can evaluate it); the wrapper `replaceWB` passes
`s.length`, which the per-step consumption makes sufficient, and the
out-of-fuel arm is unreachable. -/
def replaceWBGo (p0 : Char) (ps rep : Str) : Nat → Option Char → Str → Str
  | _, _, [] => []
  | 0, _, s => s
  | fuel + 1, prev, c :: rest =>
    if ciStartsWith (p0 :: ps) (c :: rest) && okBefore prev &&
        okAfter (rest.drop ps.length) then
      rep ++ replaceWBGo p0 ps rep fuel (((c :: rest).take (ps.length + 1)).getLast?)
        (rest.drop ps.length)
    else
      c :: replaceWBGo p0 ps rep fuel (some c) rest

/-- `String.prototype.replace` with `/\bword\b/gi` and a literal replacement. -/
def replaceWB (p0 : Char) (ps rep : Str) (prev : Option Char) (s : Str) : Str :=
  replaceWBGo p0 ps rep s.length prev s

/-- One `.replace(/\bpat\b/gi, rep)` step. -/
def replaceWord (pat rep : String) (t : Str) : Str :=
  match pat.data with
  | [] => t
  | p :: ps => replaceWB p ps (str rep) none t

/-- The four chained replacements of `simplifyText` (`analysis.ts` lines 108-111). -/
def simplifyReplacements (t : Str) : Str :=
  replaceWord "force majeure" "events beyond control"
    (replaceWord "notwithstanding" "despite"
      (replaceWord "indemnify" "cover costs for"
        (replaceWord "hereinafter" "from now on" t)))

/-- `simplifyText` (`analysis.ts` lines 105-114): replacements, then
`.slice(0, 260)` of the replaced text, plus an ellipsis when the
*original* `text.length > 260`. -/
def simplifyText (text : Str) : Str :=
  (simplifyReplacements text).take 260 ++ (if 260 < text.length then ['…'] else [])

/-! ## Risk aggregator (`analysis.ts` lines 129-160) -/

/-- Effective category of a clause: `c.category || "General"`
(`analysis.ts` line 138). -/
def effCat (c : Clause) : ClauseCategory := c.category.getD .General

/-- Numeric weight of a clause:
`c.riskLevel === "High" ? 85 : c.riskLevel === "Medium" ? 55 : 20`
(`analysis.ts` line 137). -/
def weightOf (c : Clause) : Nat :=
  match c.riskLevel with
  | some .High => 85
  | some .Medium => 55
  | _ => 20

/-- The four mutable score buckets of `computeRisk` (`analysis.ts` lines 130-135). -/
structure Buckets where
  financial : List Nat
  legal : List Nat
  compliance : List Nat
  termination : List Nat

/-- One iteration of the `doc.clauses.forEach` push loop
(`analysis.ts` lines 136-140): `General` has no bucket, so it is skipped. -/
def pushBucket (b : Buckets) (c : Clause) : Buckets :=
  let val := weightOf c
  match effCat c with
  | .Financial => { b with financial := b.financial ++ [val] }
  | .Legal => { b with legal := b.legal ++ [val] }
  | .Compliance => { b with compliance := b.compliance ++ [val] }
  | .Termination => { b with termination := b.termination ++ [val] }
  | .General => b

/-- `avg` (`analysis.ts` line 141): `arr.length ? Math.round(sum/len) : 10`.
For non-negative operands `Math.round(sum/len) = ⌊sum/len + 1/2⌋`, which is
`(2*sum + len) / (2*len)` in exact natural division; the float division is
exact at every representable half-integer, so no rounding anomaly arises for
the weights in play. -/
def avgScore (arr : List Nat) : Nat :=
  if arr.length = 0 then 10 else (2 * arr.sum + arr.length) / (2 * arr.length)

/-- Tests `doc.clauses.some(c => /arbitration/i.test(c.originalText))` etc.:
case-insensitive substring presence in some clause's original text. -/
def someClauseHas (doc : ParsedDocument) (needle : Str) : Bool :=
  doc.clauses.any (fun c => containsSub (lowerL c.originalText) needle)

/-- `!doc.effectiveDate` (`analysis.ts` line 158): JS falsiness of an optional
string — absent or the empty string. -/
def noEffectiveDate (doc : ParsedDocument) : Bool :=
  match doc.effectiveDate with
  | none => true
  | some d => d.isEmpty

/-- The four fixed recommendation strings and the fallback
(`analysis.ts` lines 150-160). -/
def recArbitration : Str := str "Arbitration clause: confirm seat and rules."

def recTermination : Str := str "Termination: clarify notice periods and grounds."

def recPenalty : Str := str "Financial penalties: negotiate caps or grace periods."

def recMissingDate : Str := str "Missing effective date: ensure dates are explicit."

def recFallback : Str := str "No major risks detected."

/-- `generateRecommendations` (`analysis.ts` lines 150-160): the four
independent pushes, then the fallback when nothing was pushed. -/
def generateRecommendations (doc : ParsedDocument) : List Str :=
  let recs :=
    (if someClauseHas doc (str "arbitration") then [recArbitration] else []) ++
    (if someClauseHas doc (str "termination") then [recTermination] else []) ++
    (if someClauseHas doc (str "penalty") || someClauseHas doc (str "late fee") then
      [recPenalty] else []) ++
    (if noEffectiveDate doc then [recMissingDate] else [])
  if recs.isEmpty then [recFallback] else recs

/-- `computeRisk` (`analysis.ts` lines 129-148).  The `byCategory` order is the
insertion order of the `buckets` record: Financial, Legal, Compliance,
Termination. -/
def computeRisk (doc : ParsedDocument) : RiskOverview :=
  let b := doc.clauses.foldl pushBucket ⟨[], [], [], []⟩
  { byCategory :=
      [⟨.Financial, avgScore b.financial⟩, ⟨.Legal, avgScore b.legal⟩,
       ⟨.Compliance, avgScore b.compliance⟩, ⟨.Termination, avgScore b.termination⟩]
    recommendations := generateRecommendations doc }

/-! ## Entity & fact extractor (`analysis.ts` lines 15, 47-93, 116-127) -/

/-- `text.split(/\n|\. /)` (`analysis.ts` line 83): cut at each newline or
literal ". " (leftmost match, separators dropped). -/
def oblSplitGo (acc : Str) : Str → List Str
  | [] => [acc.reverse]
  | '\n' :: r => acc.reverse :: oblSplitGo [] r
  | '.' :: ' ' :: r => acc.reverse :: oblSplitGo [] r
  | c :: r => oblSplitGo (c :: acc) r

/-- The alternatives of `/(shall|must|agree|responsible|warrant)/i`. -/
def OBLIGATION_TERMS : List Str :=
  [str "shall", str "must", str "agree", str "responsible", str "warrant"]

/-- `extractObligations` (`analysis.ts` lines 82-85): split, drop empties
(`filter(Boolean)`), keep lines matching the obligation regex
case-insensitively, `slice(0, 6)`. -/
def extractObligations (text : Str) : List Str :=
  (((oblSplitGo [] text).filter (fun l => l ≠ [])).filter
    (fun l => OBLIGATION_TERMS.any (fun w => containsSub (lowerL l) w))).take 6

/-- Length of the maximal run of characters satisfying `p` at the front. -/
def countLeading (p : Char → Bool) : Str → Nat
  | [] => 0
  | c :: r => if p c then countLeading p r + 1 else 0

/-- Match `\d+\.\s+` at the head of `s` (second alternative of the clause
split regex, after its `(?:^|\n)` anchor); returns the matched length. -/
def clauseMark (s : Str) : Option Nat :=
  let d := countLeading Char.isDigit s
  if d = 0 then none
  else
    match s.drop d with
    | '.' :: r2 =>
      let w := countLeading Char.isWhitespace r2
      if w = 0 then none else some (d + 1 + w)
    | _ => none

/-- Does a separator of `/\n{2,}|(?:^|\n)\d+\.\s+/` match at this position?
`at0` marks position 0 of the original string (the `^` anchor); on success
returns the text after the separator. -/
def splitStep (at0 : Bool) (s : Str) : Option Str :=
  let n1 := countLeading (fun c => c == '\n') s
  if 2 ≤ n1 then some (s.drop n1)
  else if at0 then
    match clauseMark s with
    | some n => some (s.drop n)
    | none =>
      match s with
      | '\n' :: r => (clauseMark r).map (fun n => r.drop n)
      | _ => none
  else
    match s with
    | '\n' :: r => (clauseMark r).map (fun n => r.drop n)
    | _ => none

/-- The splitting loop of `splitClauses` (`analysis.ts` lines 88-89):
leftmost-match scan of `/\n{2,}|(?:^|\n)\d+\.\s+/`, accumulating the current
fragment in reverse.  Fuel-driven structural recursion: each step consumes at
least one character (`splitStep_lt`), so fuel `s.length + 1` never runs out
and the zero-fuel arm is unreachable. -/
def clauseSplitGo (fuel : Nat) (at0 : Bool) (acc : Str) (s : Str) : List Str :=
  match fuel with
  | 0 => [acc.reverse]
  | fuel + 1 =>
    match splitStep at0 s with
    | some r => acc.reverse :: clauseSplitGo fuel false [] r
    | none =>
      match s with
      | [] => [acc.reverse]
      | c :: rest => clauseSplitGo fuel false (c :: acc) rest

/-- JS `String.prototype.trim`. -/
def trimL (s : Str) : Str :=
  ((s.dropWhile Char.isWhitespace).reverse.dropWhile Char.isWhitespace).reverse

/-- `splitClauses` (`analysis.ts` lines 87-93): split, trim, drop empties,
`slice(0, 8)`. -/
def splitClauses (text : Str) : List Str :=
  (((clauseSplitGo (text.length + 1) true [] text).map trimL).filter
    (fun l => l ≠ [])).take 8

/-- `text.split(/\n/)` keeping empty fragments. -/
def lineSplitGo (acc : Str) : Str → List Str
  | [] => [acc.reverse]
  | '\n' :: r => acc.reverse :: lineSplitGo [] r
  | c :: r => lineSplitGo (c :: acc) r

/-- `summarize` (`analysis.ts` lines 116-119): first 6 lines joined with a
space, truncated at 360 characters with an ellipsis. -/
def summarize (text : Str) : Str :=
  let s := List.intercalate [' '] ((lineSplitGo [] text).take 6)
  if 360 < s.length then s.take 360 ++ ['…'] else s

/-- `findNotes` (`analysis.ts` lines 121-127): three independent
case-insensitive checks (`/auto-?renew/i`, `/indemnif/i`, `/late fee/i`),
each appending one fixed note. -/
def findNotes (text : Str) : List Str :=
  let t := lowerL text
  (if containsSub t (str "auto-renew") || containsSub t (str "autorenew") then
    [str "Auto-renew detected. Consider calendar reminders."] else []) ++
  (if containsSub t (str "indemnif") then
    [str "Indemnity present. Understand financial exposure."] else []) ++
  (if containsSub t (str "late fee") then
    [str "Late fee present. Review payment schedules."] else [])

/-! ## Effective-date regex (`analysis.ts` line 15)

`DATE_REGEX`: a word-bounded `YYYY sep MM sep DD` pattern where the year
group is `20\d{2}|19\d{2}`, each separator is a dash or forward slash, the
month group is `0?[1-9]|1[0-2]` and the day group is `0?[1-9]|[12]\d|3[01]`.
The matcher below reproduces the scan: leftmost starting position wins; within
a position, alternatives are tried in source order and quantifier greediness
is as in the pattern (the only backtracking points are the alternations of the
month and day groups, enumerated as ordered candidate lists). -/

/-- `[1-9]`. -/
def digit19 (c : Char) : Bool := '1' ≤ c && c ≤ '9'

/-- The separator class: dash or forward slash. -/
def isSepChar (c : Char) : Bool := c == '-' || c == '/'

/-- `(20\d{2}|19\d{2})` at the head; returns (matched, rest). -/
def matchYear : Str → Option (Str × Str)
  | '2' :: '0' :: a :: b :: r =>
    if a.isDigit && b.isDigit then some (['2', '0', a, b], r) else none
  | '1' :: '9' :: a :: b :: r =>
    if a.isDigit && b.isDigit then some (['1', '9', a, b], r) else none
  | _ => none

/-- Ordered candidates of `(0?[1-9]|1[0-2])` at the head. -/
def monthCands (s : Str) : List (Str × Str) :=
  (match s with
   | '0' :: d :: r => if digit19 d then [(['0', d], r)] else []
   | d :: r => if digit19 d then [([d], r)] else []
   | [] => []) ++
  (match s with
   | '1' :: d :: r => if '0' ≤ d && d ≤ '2' then [(['1', d], r)] else []
   | _ => [])

/-- Ordered candidates of `(0?[1-9]|[12]\d|3[01])` at the head. -/
def dayCands (s : Str) : List (Str × Str) :=
  (match s with
   | '0' :: d :: r => if digit19 d then [(['0', d], r)] else []
   | d :: r => if digit19 d then [([d], r)] else []
   | [] => []) ++
  (match s with
   | c :: d :: r => if (c == '1' || c == '2') && d.isDigit then [([c, d], r)] else []
   | _ => []) ++
  (match s with
   | '3' :: d :: r => if d == '0' || d == '1' then [(['3', d], r)] else []
   | _ => [])

/-- First candidate whose continuation succeeds (regex backtracking order). -/
def firstSome {α β : Type} (l : List α) (f : α → Option β) : Option β :=
  match l with
  | [] => none
  | a :: r =>
    match f a with
    | some b => some b
    | none => firstSome r f

/-- Try the full date pattern at this position; `prev` is the preceding
original character for the leading `\b` (the year starts with a digit, so the
boundary requires a non-word predecessor; the day ends with a digit, so the
trailing `\b` requires a non-word successor). Returns `m[0]`. -/
def matchDateAt (prev : Option Char) (s : Str) : Option Str :=
  if !okBefore prev then none
  else
    match matchYear s with
    | none => none
    | some (y, r1) =>
      match r1 with
      | s1 :: r2 =>
        if isSepChar s1 then
          firstSome (monthCands r2) (fun mc =>
            match mc.2 with
            | s2 :: r4 =>
              if isSepChar s2 then
                firstSome (dayCands r4) (fun dc =>
                  if okAfter dc.2 then some (y ++ s1 :: (mc.1 ++ s2 :: dc.1)) else none)
              else none
            | [] => none)
        else none
      | [] => none

/-- Leftmost-match scan for `DATE_REGEX` (`raw.match(DATE_REGEX)`,
`analysis.ts` line 55): first position where the pattern matches. -/
def findDateGo (prev : Option Char) (s : Str) : Option Str :=
  match matchDateAt prev s with
  | some m => some m
  | none =>
    match s with
    | [] => none
    | c :: r => findDateGo (some c) r

/-- `raw.match(DATE_REGEX)` reduced to the first matched substring. -/
def findDate (s : Str) : Option Str := findDateGo none s

/-! ## Language identifier (`src/lib/lang-detect.ts`) -/

/-- Hindi cue words of `/है|और|के|जबकि|से|लिए/`. -/
def HINDI_WORDS : List Str := [str "है", str "और", str "के", str "जबकि", str "से", str "लिए"]

/-- Marathi cue words of `/आहे|आणि|च्या|पासून|साठी/`. -/
def MARATHI_WORDS : List Str := [str "आहे", str "आणि", str "च्या", str "पासून", str "साठी"]

/-- `detectLanguageBySample` (`lang-detect.ts`): every branch returns a value,
so the `LanguageCode | undefined` result is in fact always defined. -/
def detectLanguageBySample (t : Str) : LanguageCode :=
  let hasDevanagari := t.any (fun c => 0x900 ≤ c.toNat && c.toNat ≤ 0x97F)
  if !hasDevanagari then .en
  else if HINDI_WORDS.any (fun w => containsSub t w) then .hi
  else if MARATHI_WORDS.any (fun w => containsSub t w) then .mr
  else .hi

/-! ## File reading stand-ins (`analysis.ts` lines 17-21, 162-177) -/

/-- An uploaded `File`: name, MIME type and its byte content decoded as text
(`file.text()` / `TextDecoder().decode(arrayBuffer)` agree on this model). -/
structure JsFile where
  name : Str
  ftype : Str
  content : Str
deriving DecidableEq

/-- The canned OCR text of `simulateOCR` (`analysis.ts` line 20). -/
def ocrCannedText : Str :=
  str "Scanned legal agreement image. Parties: Party A and Party B. Effective Date: 2025-01-01. Contains indemnify and arbitration clauses."

/-- `simulateOCR` (`analysis.ts` lines 17-21). -/
def simulateOCR (f : JsFile) : Str :=
  if startsWithL (str "image/") f.ftype then ocrCannedText else []

/-- PDF fallback text (`analysis.ts` lines 166-169). -/
def pdfFallbackText : Str :=
  str "PDF document with clauses about payment, termination, confidentiality, and governing law. Effective Date: 2025-06-01."

/-- DOCX canned text (`analysis.ts` line 171). -/
def docxCannedText : Str :=
  str "DOCX agreement content. Parties: Lessor and Lessee. Rent and late fee terms; termination on breach; jurisdiction in Mumbai."

/-- `readFileText` (`analysis.ts` lines 162-177). -/
def readFileText (f : JsFile) : Str :=
  if f.ftype = str "application/pdf" then
    let asText := f.content.filter (fun c => c ≠ '\x00')
    if asText = [] then pdfFallbackText else asText
  else if f.ftype = str "application/vnd.openxmlformats-officedocument.wordprocessingml.document" then
    docxCannedText
  else if startsWithL (str "image/") f.ftype then []
  else f.content

/-! ## Extraction and orchestration (`analysis.ts` lines 23-34, 47-80, 179-194) -/

/-- The `lessor`/`lessee` lexical cue of `basicExtract` (`analysis.ts` line 49). -/
def lessorCue (raw : Str) : Bool :=
  containsSub (lowerL raw) (str "lessor") || containsSub (lowerL raw) (str "lessee")

/-- `title.replace(/\.[a-zA-Z0-9]+$/, "")` (`analysis.ts` line 71): strip one
trailing dot-plus-alphanumeric extension. -/
def stripExt (t : Str) : Str :=
  let r := t.reverse
  if (r.takeWhile Char.isAlphanum).isEmpty then t
  else
    match r.dropWhile Char.isAlphanum with
    | '.' :: rest => rest.reverse
    | _ => t

/-- Decimal rendering of a `Nat` (template interpolation `${i + 1}`). -/
def natStr (n : Nat) : Str := (toString n).data

/-- `basicExtract` (`analysis.ts` lines 47-80).  `now` stands for the
`Date.now()` timestamp used in the document id. -/
def basicExtract (now : Nat) (raw : Str) (language : LanguageCode) (title : Str) :
    ParsedDocument :=
  let parties : List Party :=
    if lessorCue raw then
      [⟨str "Lessor", .Lessor⟩, ⟨str "Lessee", .Lessee⟩]
    else
      [⟨str "Party A", .PartyA⟩, ⟨str "Party B", .PartyB⟩]
  let clauses : List Clause :=
    (splitClauses raw).enum.map (fun ic =>
      { id := str "c-" ++ natStr (ic.1 + 1)
        title := str "Clause " ++ natStr (ic.1 + 1)
        originalText := ic.2
        simplifiedText := simplifyText ic.2
        category := some (categorizeClause ic.2)
        riskLevel := some (scoreRiskForClause ic.2) })
  { id := str "doc-" ++ natStr now
    title := if stripExt title = [] then str "Document" else stripExt title
    language := language
    parties := parties
    effectiveDate := findDate raw
    terminationDate := none
    obligations := extractObligations raw
    clauses := clauses
    summary := summarize raw
    notes := some (findNotes raw) }

/-- The combined text of `parseUploaded` (`analysis.ts` line 26):
`(text || "") + (ocrText ? "\n" + ocrText : "")`. -/
def uploadContent (f : JsFile) : Str :=
  let text := readFileText f
  let ocrText := simulateOCR f
  text ++ (if ocrText = [] then [] else '\n' :: ocrText)

/-- The document text handed to `basicExtract`:
`content || "Sample Agreement"` (`analysis.ts` line 28). -/
def docText (f : JsFile) : Str :=
  if uploadContent f = [] then str "Sample Agreement" else uploadContent f

/-- `parseUploaded` (`analysis.ts` lines 23-29): language hint takes
precedence over detection on the combined content. -/
def parseUploaded (now : Nat) (f : JsFile) (langHint : Option LanguageCode) :
    ParsedDocument :=
  let language := langHint.getD (detectLanguageBySample (uploadContent f))
  basicExtract now (docText f) language f.name

/-- `analyzeDocument` input (`analysis.ts` lines 179-183). -/
structure AnalyzeInput where
  file : Option JsFile
  sampleId : Option Str
  langHint : Option LanguageCode

/-- `analyzeDocument` (`analysis.ts` lines 179-194) together with
`loadSampleById` (`load-samples.ts`), with the sample table abstracted as
`store`.  JS truthiness is preserved: `if (input.sampleId)` is false for an
absent *or empty* sample id, and a `File` object is always truthy.  A thrown
`Error` becomes `Except.error` of its message. -/
def analyzeDocument (store : Str → Option ParsedDocument) (now : Nat)
    (input : AnalyzeInput) : Except Str AnalysisResult :=
  match input.sampleId with
  | some id =>
    if id = [] then
      match input.file with
      | some f =>
        let doc := parseUploaded now f input.langHint
        .ok ⟨doc, computeRisk doc⟩
      | none => .error (str "No document input provided")
    else
      match store id with
      | some doc => .ok ⟨doc, computeRisk doc⟩
      | none => .error (str "Sample not found")
  | none =>
    match input.file with
    | some f =>
      let doc := parseUploaded now f input.langHint
      .ok ⟨doc, computeRisk doc⟩
    | none => .error (str "No document input provided")

/-- The category keyword groups of `categorizeClause`, in priority order. -/
def FINANCIAL_TERMS : List Str := [str "payment", str "fee", str "rent", str "penalty"]

def TERMINATION_CAT_TERMS : List Str := [str "terminate", str "termination"]

def LEGAL_TERMS : List Str := [str "law", str "jurisdiction", str "liability", str "arbitration"]

def COMPLIANCE_TERMS : List Str := [str "compliance", str "regulation", str "confidential"]

/-- The weights collected for one category: clauses whose effective category
is `cat` contribute their risk weight, in document order.  `General` clauses
contribute to no entry of the four-category overview. -/
def weightsFor (cs : List Clause) (cat : ClauseCategory) : List Nat :=
  cs.filterMap (fun c => if effCat c = cat then some (weightOf c) else none)

/-- The spec's per-category score: the average of the weights rounded to the
nearest integer (half rounds up, matching `Math.round` on non-negative
operands: `⌊sum/len + 1/2⌋ = (2*sum + len) / (2*len)`), with 10 for an empty
bucket. -/
def claimAverageScore (l : List Nat) : Nat :=
  if l.length = 0 then 10 else (2 * l.sum + l.length) / (2 * l.length)

/-- The claim's reading of the simplifier truncation: the ellipsis marker is
appended if and only if truncation of the *replaced* text occurred. -/
def claimFourStatement (t : Str) : Prop :=
  simplifyText t =
    (simplifyReplacements t).take 260 ++
      (if 260 < (simplifyReplacements t).length then ['…'] else [])

/-- 260 characters whose replacement is 266 characters long: one "indemnify "
(replaced by the longer "cover costs for ") followed by 250 filler letters. -/
def simplifyCounterexInput : Str := str "indemnify " ++ List.replicate 250 'b'

/-- Some clause's original text contains `needle` case-insensitively. -/
def ClauseTextHas (doc : ParsedDocument) (needle : Str) : Prop :=
  ∃ c ∈ doc.clauses, SubL needle (lowerL c.originalText)

/-- Modelled from the spec: the sample JSON documents under
`src/data/samples/{en,hi,mr}/*.json` are not among the provided sources (only
their loader is), so one stored sample is reconstructed from the spec's
description of a pre-built rental-agreement `ParsedDocument` satisfying the
data-model invariants of spec §3 (two parties, at most 8 clauses and 6
obligations, clause categories and risk levels set). -/
def sampleRentalDoc : ParsedDocument :=
  { id := str "sample-en-rental"
    title := str "Rental Agreement"
    language := .en
    parties := [⟨str "Lessor", .Lessor⟩, ⟨str "Lessee", .Lessee⟩]
    effectiveDate := some (str "2025-01-01")
    terminationDate := none
    obligations := [str "The Lessee shall pay rent monthly."]
    clauses :=
      [{ id := str "c-1", title := str "Clause 1"
         originalText := str "The Lessee shall pay rent and any late fee."
         simplifiedText := str "The Lessee shall pay rent and any late fee."
         category := some .Financial, riskLevel := some .High },
       { id := str "c-2", title := str "Clause 2"
         originalText := str "Either party may end the lease with notice."
         simplifiedText := str "Either party may end the lease with notice."
         category := some .Termination, riskLevel := some .Low }]
    summary := str "A rental agreement between Lessor and Lessee."
    notes := some [] }

/-- Modelled from the spec: the sample repository keyed by sample id
(`load-samples.ts` keys like "sample-en-rental"), restricted to the one
reconstructed sample. -/
def sampleStore : Str → Option ParsedDocument :=
  fun id => if id = str "sample-en-rental" then some sampleRentalDoc else none

/-- Modelled from the spec: every stored sample satisfies the spec §3 bounds
`clauses.length ≤ 8` and `obligations.length ≤ 6` (the sample JSON files are
not among the provided sources). -/
def StoreBoundsOK (store : Str → Option ParsedDocument) : Prop :=
  ∀ id d, store id = some d → d.clauses.length ≤ 8 ∧ d.obligations.length ≤ 6

/-- Modelled from the spec: every stored sample has at least two parties
(spec §3: "at least two parties always present"). -/
def StorePartiesOK (store : Str → Option ParsedDocument) : Prop :=
  ∀ id d, store id = some d → 2 ≤ d.parties.length

/-- The claim's reading of the failure contract: a validation error exactly
when neither field is supplied, and a not-found error whenever the supplied
sample id is not in the store. -/
def claimSixStatement : Prop :=
  ∀ (store : Str → Option ParsedDocument) (now : Nat) (input : AnalyzeInput),
    (analyzeDocument store now input = .error (str "No document input provided") ↔
      input.file = none ∧ input.sampleId = none) ∧
    (∀ id, input.sampleId = some id → store id = none →
      analyzeDocument store now input = .error (str "Sample not found"))

/-- The claim's reading of sample precedence: whenever both `file` and
`sampleId` are supplied, the file (and the timestamp) has no influence and
the result equals the file-less run. -/
def claimTenStatement : Prop :=
  ∀ (store : Str → Option ParsedDocument) (now now2 : Nat) (f f2 : JsFile)
    (id : Str) (hint : Option LanguageCode),
    analyzeDocument store now ⟨some f, some id, hint⟩ =
      analyzeDocument store now2 ⟨some f2, some id, hint⟩ ∧
    analyzeDocument store now ⟨some f, some id, hint⟩ =
      analyzeDocument store now ⟨none, some id, hint⟩

/-- A plain-text upload whose content mentions a lessor. -/
def fileLessor : JsFile :=
  ⟨str "lease.txt", str "text/plain",
   str "The lessor grants use of the premises. The lessee shall pay rent."⟩

/-- A plain-text upload with no recognized cues. -/
def filePlain : JsFile := ⟨str "note.txt", str "text/plain", str "zz"⟩

/-! ## Theorems -/

theorem startsWithL_iff (n h : Str) : startsWithL n h = true ↔ ∃ s, h = n ++ s := by
  induction n generalizing h with
  | nil => simp [startsWithL]
  | cons a as ih =>
    cases h with
    | nil => simp [startsWithL]
    | cons b bs =>
      simp only [startsWithL, Bool.and_eq_true, beq_iff_eq, ih]
      constructor
      · rintro ⟨rfl, s, rfl⟩
        exact ⟨s, rfl⟩
      · rintro ⟨s, hs⟩
        cases hs
        exact ⟨rfl, s, rfl⟩

theorem containsSub_iff (hay needle : Str) :
    containsSub hay needle = true ↔ SubL needle hay := by
  induction hay with
  | nil =>
    simp only [containsSub, startsWithL_iff, SubL]
    constructor
    · rintro ⟨s, hs⟩
      exact ⟨[], s, by simpa using hs⟩
    · rintro ⟨p, s, hs⟩
      exact ⟨s, by
        have : p = [] ∧ needle ++ s = [] := by
          have := hs.symm
          simpa [List.append_eq_nil] using this
        simp [this.2]⟩
  | cons c rest ih =>
    simp only [containsSub, Bool.or_eq_true, startsWithL_iff, ih, SubL]
    constructor
    · rintro (⟨s, hs⟩ | ⟨p, s, hs⟩)
      · exact ⟨[], s, by simpa using hs⟩
      · exact ⟨c :: p, s, by simp [hs]⟩
    · rintro ⟨p, s, hs⟩
      cases p with
      | nil => exact Or.inl ⟨s, by simpa using hs⟩
      | cons x xs =>
        right
        obtain ⟨rfl, hrest⟩ : x = c ∧ xs ++ (needle ++ s) = rest := by
          simpa using hs.symm
        exact ⟨xs, s, by simp [← hrest]⟩

theorem countLeading_le (p : Char → Bool) (s : Str) : countLeading p s ≤ s.length := by
  induction s with
  | nil => simp [countLeading]
  | cons c r ih =>
    simp only [countLeading, List.length_cons]
    split <;> omega

theorem clauseMark_bounds {s : Str} {n : Nat} (h : clauseMark s = some n) :
    1 ≤ n ∧ n ≤ s.length := by
  simp only [clauseMark] at h
  split at h
  · exact absurd h (by simp)
  · rename_i hd0
    split at h
    · rename_i r2 hdrop
      split at h
      · exact absurd h (by simp)
      · rename_i hw0
        obtain rfl : countLeading Char.isDigit s + 1 +
            countLeading Char.isWhitespace r2 = n := by simpa using h
        have hdle := countLeading_le Char.isDigit s
        have hwle := countLeading_le Char.isWhitespace r2
        have hlen : s.length - countLeading Char.isDigit s = r2.length + 1 := by
          have := congrArg List.length hdrop
          simpa using this
        omega
    · exact absurd h (by simp)

theorem splitStep_lt {at0 : Bool} {s r : Str} (h : splitStep at0 s = some r) :
    r.length < s.length := by
  unfold splitStep at h
  set n1 := countLeading (fun c => c == '\n') s with hn1
  by_cases h2 : 2 ≤ n1
  · simp only [if_pos h2] at h
    have hle : n1 ≤ s.length := hn1 ▸ countLeading_le _ s
    obtain rfl : s.drop n1 = r := by simpa using h
    simp only [List.length_drop]
    omega
  · simp only [if_neg h2] at h
    have main : ∀ s' r' : Str,
        (match s' with
          | '\n' :: t => (clauseMark t).map (fun n => t.drop n)
          | _ => none) = some r' → r'.length < s'.length := by
      intro s' r' hm
      rcases s' with _ | ⟨c, t⟩
      · simp at hm
      · by_cases hc : c = '\n'
        · subst hc
          simp only [Option.map_eq_some'] at hm
          obtain ⟨n, _, rfl⟩ := hm
          simp only [List.length_drop, List.length_cons]
          omega
        · rcases c
          simp_all
    by_cases ha : at0
    · rw [if_pos ha] at h
      rcases hcm : clauseMark s with _ | n <;> rw [hcm] at h
      · exact main s r h
      · obtain rfl : s.drop n = r := by simpa using h
        have := clauseMark_bounds hcm
        simp only [List.length_drop]
        omega
    · rw [if_neg ha] at h
      exact main s r h

/-! ## Claim theorems -/

theorem any_containsSub_iff (L : List Str) (u : Str) :
    (L.any (fun w => containsSub u w) = true) ↔ ∃ w ∈ L, SubL w u := by
  simp only [List.any_eq_true, containsSub_iff]

/-- C2: the risk scorer returns High exactly when the lower-cased clause text
contains a HIGH-set term as a substring; otherwise Medium exactly when it
contains a MEDIUM-set term; otherwise Low.  High is checked first, so a clause
matching both sets is High, and matching is case-insensitive substring
containment with no word boundaries. -/
theorem scoreRiskForClause_spec (text : Str) :
    (scoreRiskForClause text = .High ↔
      ∃ w ∈ HIGH_RISK_TERMS, SubL w (lowerL text)) ∧
    (scoreRiskForClause text = .Medium ↔
      (¬∃ w ∈ HIGH_RISK_TERMS, SubL w (lowerL text)) ∧
      ∃ w ∈ MEDIUM_RISK_TERMS, SubL w (lowerL text)) ∧
    (scoreRiskForClause text = .Low ↔
      (¬∃ w ∈ HIGH_RISK_TERMS, SubL w (lowerL text)) ∧
      ¬∃ w ∈ MEDIUM_RISK_TERMS, SubL w (lowerL text)) := by
  rw [← any_containsSub_iff, ← any_containsSub_iff]
  by_cases h1 : HIGH_RISK_TERMS.any (fun w => containsSub (lowerL text) w) = true <;>
    by_cases h2 : MEDIUM_RISK_TERMS.any (fun w => containsSub (lowerL text) w) = true <;>
    simp [scoreRiskForClause, tokenize, h1, h2]

/-- C3: the category classifier checks the four keyword groups in priority
order (Financial, Termination, Legal, Compliance) on the lower-cased text and
returns the first group with a substring match, else General.  In particular a
clause containing both "payment" and "termination" is Financial. -/
theorem categorizeClause_spec (text : Str) :
    (categorizeClause text = .Financial ↔
      ∃ w ∈ FINANCIAL_TERMS, SubL w (lowerL text)) ∧
    (categorizeClause text = .Termination ↔
      (¬∃ w ∈ FINANCIAL_TERMS, SubL w (lowerL text)) ∧
      ∃ w ∈ TERMINATION_CAT_TERMS, SubL w (lowerL text)) ∧
    (categorizeClause text = .Legal ↔
      (¬∃ w ∈ FINANCIAL_TERMS, SubL w (lowerL text)) ∧
      (¬∃ w ∈ TERMINATION_CAT_TERMS, SubL w (lowerL text)) ∧
      ∃ w ∈ LEGAL_TERMS, SubL w (lowerL text)) ∧
    (categorizeClause text = .Compliance ↔
      (¬∃ w ∈ FINANCIAL_TERMS, SubL w (lowerL text)) ∧
      (¬∃ w ∈ TERMINATION_CAT_TERMS, SubL w (lowerL text)) ∧
      (¬∃ w ∈ LEGAL_TERMS, SubL w (lowerL text)) ∧
      ∃ w ∈ COMPLIANCE_TERMS, SubL w (lowerL text)) ∧
    (categorizeClause text = .General ↔
      (¬∃ w ∈ FINANCIAL_TERMS, SubL w (lowerL text)) ∧
      (¬∃ w ∈ TERMINATION_CAT_TERMS, SubL w (lowerL text)) ∧
      (¬∃ w ∈ LEGAL_TERMS, SubL w (lowerL text)) ∧
      ¬∃ w ∈ COMPLIANCE_TERMS, SubL w (lowerL text)) := by
  have hf : (∃ w ∈ FINANCIAL_TERMS, SubL w (lowerL text)) ↔
      (containsSub (lowerL text) (str "payment") || containsSub (lowerL text) (str "fee") ||
       containsSub (lowerL text) (str "rent") ||
       containsSub (lowerL text) (str "penalty")) = true := by
    simp [FINANCIAL_TERMS, ← containsSub_iff, or_assoc]
  have ht : (∃ w ∈ TERMINATION_CAT_TERMS, SubL w (lowerL text)) ↔
      (containsSub (lowerL text) (str "terminate") ||
       containsSub (lowerL text) (str "termination")) = true := by
    simp [TERMINATION_CAT_TERMS, ← containsSub_iff]
  have hl : (∃ w ∈ LEGAL_TERMS, SubL w (lowerL text)) ↔
      (containsSub (lowerL text) (str "law") || containsSub (lowerL text) (str "jurisdiction") ||
       containsSub (lowerL text) (str "liability") ||
       containsSub (lowerL text) (str "arbitration")) = true := by
    simp [LEGAL_TERMS, ← containsSub_iff, or_assoc]
  have hc : (∃ w ∈ COMPLIANCE_TERMS, SubL w (lowerL text)) ↔
      (containsSub (lowerL text) (str "compliance") ||
       containsSub (lowerL text) (str "regulation") ||
       containsSub (lowerL text) (str "confidential")) = true := by
    simp [COMPLIANCE_TERMS, ← containsSub_iff, or_assoc]
  rw [hf, ht, hl, hc]
  by_cases h1 : (containsSub (lowerL text) (str "payment") ||
      containsSub (lowerL text) (str "fee") || containsSub (lowerL text) (str "rent") ||
      containsSub (lowerL text) (str "penalty")) = true <;>
    by_cases h2 : (containsSub (lowerL text) (str "terminate") ||
      containsSub (lowerL text) (str "termination")) = true <;>
    by_cases h3 : (containsSub (lowerL text) (str "law") ||
      containsSub (lowerL text) (str "jurisdiction") ||
      containsSub (lowerL text) (str "liability") ||
      containsSub (lowerL text) (str "arbitration")) = true <;>
    by_cases h4 : (containsSub (lowerL text) (str "compliance") ||
      containsSub (lowerL text) (str "regulation") ||
      containsSub (lowerL text) (str "confidential")) = true <;>
    simp [categorizeClause, h1, h2, h3, h4]

theorem weightsFor_cons (c : Clause) (cs : List Clause) (cat : ClauseCategory) :
    weightsFor (c :: cs) cat =
      (if effCat c = cat then [weightOf c] else []) ++ weightsFor cs cat := by
  by_cases hc : effCat c = cat
  · simp [weightsFor, List.filterMap_cons, hc]
  · simp [weightsFor, List.filterMap_cons, hc]

theorem foldl_pushBucket (cs : List Clause) (b : Buckets) :
    (cs.foldl pushBucket b).financial = b.financial ++ weightsFor cs .Financial ∧
    (cs.foldl pushBucket b).legal = b.legal ++ weightsFor cs .Legal ∧
    (cs.foldl pushBucket b).compliance = b.compliance ++ weightsFor cs .Compliance ∧
    (cs.foldl pushBucket b).termination = b.termination ++ weightsFor cs .Termination := by
  induction cs generalizing b with
  | nil => simp [weightsFor]
  | cons c cs ih =>
    have step := ih (pushBucket b c)
    cases hcat : effCat c
    all_goals
      simp only [pushBucket, hcat] at step
    all_goals
      simp [List.foldl_cons, pushBucket, hcat, weightsFor_cons, step, List.append_assoc]

theorem weightOf_le_85 (c : Clause) : weightOf c ≤ 85 := by
  unfold weightOf
  rcases c.riskLevel with _ | l
  · simp
  · cases l <;> simp

theorem mem_weightsFor_le {cs : List Clause} {cat : ClauseCategory} {x : Nat}
    (hx : x ∈ weightsFor cs cat) : x ≤ 85 := by
  simp only [weightsFor, List.mem_filterMap] at hx
  obtain ⟨c, -, hc⟩ := hx
  split at hc
  · cases hc
    exact weightOf_le_85 c
  · cases hc

theorem sum_le_85_mul (l : List Nat) (h : ∀ x ∈ l, x ≤ 85) :
    l.sum ≤ 85 * l.length := by
  induction l with
  | nil => simp
  | cons x xs ih =>
    have hx := h x (by simp)
    have hxs := ih (fun y hy => h y (by simp [hy]))
    simp only [List.sum_cons, List.length_cons]
    omega

theorem claimAverageScore_le_100 (l : List Nat) (h : ∀ x ∈ l, x ≤ 85) :
    claimAverageScore l ≤ 100 := by
  unfold claimAverageScore
  split
  · omega
  · rename_i hlen
    have hsum := sum_le_85_mul l h
    have hpos : 0 < 2 * l.length := by omega
    have hlt : (2 * l.sum + l.length) / (2 * l.length) < 101 :=
      (Nat.div_lt_iff_lt_mul hpos).mpr (by omega)
    omega

/-- C1: for every `ParsedDocument`, `computeRisk` returns `byCategory` with
exactly the four fixed categories in order Financial, Legal, Compliance,
Termination; each entry's score is the rounded average (`claimAverageScore`)
of the risk weights (High=85, Medium=55, otherwise 20, per `weightOf`) of the
clauses whose effective category is that entry's category, with 10 for an
empty bucket; `General` clauses feed no entry (`weightsFor` keeps only the
entry's own category); and every score is at most 100 (hence in `[0,100]`,
scores being naturals). -/
theorem computeRisk_byCategory_spec (doc : ParsedDocument) :
    ((computeRisk doc).byCategory.map CategoryScore.category =
      [.Financial, .Legal, .Compliance, .Termination]) ∧
    (∀ e ∈ (computeRisk doc).byCategory,
      e.score = claimAverageScore (weightsFor doc.clauses e.category) ∧
      e.category ≠ .General ∧
      e.score ≤ 100 ∧
      (weightsFor doc.clauses e.category = [] → e.score = 10)) := by
  obtain ⟨h1, h2, h3, h4⟩ := foldl_pushBucket doc.clauses ⟨[], [], [], []⟩
  simp only [List.nil_append] at h1 h2 h3 h4
  have hle : ∀ cat, claimAverageScore (weightsFor doc.clauses cat) ≤ 100 :=
    fun _ => claimAverageScore_le_100 _ (fun _ hx => mem_weightsFor_le hx)
  constructor
  · simp [computeRisk]
  · intro e he
    simp only [computeRisk, List.mem_cons, List.not_mem_nil, or_false] at he
    rcases he with rfl | rfl | rfl | rfl
    · refine ⟨?_, by simp, ?_, fun hemp => ?_⟩
      · show avgScore (List.foldl pushBucket ⟨[], [], [], []⟩ doc.clauses).financial =
          claimAverageScore (weightsFor doc.clauses .Financial)
        rw [h1]
        rfl
      · show avgScore (List.foldl pushBucket ⟨[], [], [], []⟩ doc.clauses).financial ≤ 100
        rw [h1]
        exact hle _
      · show avgScore (List.foldl pushBucket ⟨[], [], [], []⟩ doc.clauses).financial = 10
        have hemp' : weightsFor doc.clauses ClauseCategory.Financial = [] := hemp
        rw [h1, hemp']
        rfl
    · refine ⟨?_, by simp, ?_, fun hemp => ?_⟩
      · show avgScore (List.foldl pushBucket ⟨[], [], [], []⟩ doc.clauses).legal =
          claimAverageScore (weightsFor doc.clauses .Legal)
        rw [h2]
        rfl
      · show avgScore (List.foldl pushBucket ⟨[], [], [], []⟩ doc.clauses).legal ≤ 100
        rw [h2]
        exact hle _
      · show avgScore (List.foldl pushBucket ⟨[], [], [], []⟩ doc.clauses).legal = 10
        have hemp' : weightsFor doc.clauses ClauseCategory.Legal = [] := hemp
        rw [h2, hemp']
        rfl
    · refine ⟨?_, by simp, ?_, fun hemp => ?_⟩
      · show avgScore (List.foldl pushBucket ⟨[], [], [], []⟩ doc.clauses).compliance =
          claimAverageScore (weightsFor doc.clauses .Compliance)
        rw [h3]
        rfl
      · show avgScore (List.foldl pushBucket ⟨[], [], [], []⟩ doc.clauses).compliance ≤ 100
        rw [h3]
        exact hle _
      · show avgScore (List.foldl pushBucket ⟨[], [], [], []⟩ doc.clauses).compliance = 10
        have hemp' : weightsFor doc.clauses ClauseCategory.Compliance = [] := hemp
        rw [h3, hemp']
        rfl
    · refine ⟨?_, by simp, ?_, fun hemp => ?_⟩
      · show avgScore (List.foldl pushBucket ⟨[], [], [], []⟩ doc.clauses).termination =
          claimAverageScore (weightsFor doc.clauses .Termination)
        rw [h4]
        rfl
      · show avgScore (List.foldl pushBucket ⟨[], [], [], []⟩ doc.clauses).termination ≤ 100
        rw [h4]
        exact hle _
      · show avgScore (List.foldl pushBucket ⟨[], [], [], []⟩ doc.clauses).termination = 10
        have hemp' : weightsFor doc.clauses ClauseCategory.Termination = [] := hemp
        rw [h4, hemp']
        rfl

set_option maxRecDepth 16000 in
/-- C4 counterexample: on a 260-character clause containing "indemnify", the
replaced text has 266 characters, so it *is* truncated, yet no ellipsis is
appended (the code tests the length of the original text, not of the replaced
text), falsifying "ellipsis marker appended iff truncation occurred". -/
theorem simplifyText_claim_counterexample :
    ¬claimFourStatement simplifyCounterexInput ∧
    simplifyCounterexInput.length = 260 ∧
    (simplifyReplacements simplifyCounterexInput).length = 266 ∧
    simplifyText simplifyCounterexInput =
      (simplifyReplacements simplifyCounterexInput).take 260 := by
  unfold claimFourStatement
  decide

/-- C4 (amended): `simplifyText` applies the four fixed case-insensitive
replacements to the whole text and hard-truncates the result to 260
characters, appending the trailing ellipsis marker if and only if the
*original* text length exceeds 260 (not iff truncation of the replaced text
occurred); consequently the simplified text's length is at most 261. -/
theorem simplifyText_spec (text : Str) :
    simplifyText text =
      (simplifyReplacements text).take 260 ++
        (if 260 < text.length then ['…'] else []) ∧
    (simplifyText text).length ≤ 261 := by
  refine ⟨rfl, ?_⟩
  simp only [simplifyText, List.length_append, List.length_take]
  split <;> simp

theorem someClauseHas_iff (doc : ParsedDocument) (w : Str) :
    someClauseHas doc w = true ↔ ClauseTextHas doc w := by
  simp [someClauseHas, ClauseTextHas, List.any_eq_true, containsSub_iff]

theorem noEffectiveDate_iff (doc : ParsedDocument) :
    noEffectiveDate doc = true ↔
      (doc.effectiveDate = none ∨ doc.effectiveDate = some []) := by
  unfold noEffectiveDate
  rcases doc.effectiveDate with _ | d <;> simp

/-- C7: the recommendations list is never empty; each of the four independent
checks (clause text containing "arbitration"; containing "termination";
containing "penalty" or "late fee"; the document having no effective date)
contributes exactly its fixed string; and the list is exactly the single
fallback string precisely when none of the four triggers.  (JS nuance: the
`!doc.effectiveDate` check also fires on an empty-string date, reflected in
the `doc.effectiveDate = some []` disjunct.) -/
theorem generateRecommendations_spec (doc : ParsedDocument) :
    generateRecommendations doc ≠ [] ∧
    (recArbitration ∈ generateRecommendations doc ↔
      ClauseTextHas doc (str "arbitration")) ∧
    (recTermination ∈ generateRecommendations doc ↔
      ClauseTextHas doc (str "termination")) ∧
    (recPenalty ∈ generateRecommendations doc ↔
      (ClauseTextHas doc (str "penalty") ∨ ClauseTextHas doc (str "late fee"))) ∧
    (recMissingDate ∈ generateRecommendations doc ↔
      (doc.effectiveDate = none ∨ doc.effectiveDate = some [])) ∧
    (generateRecommendations doc = [recFallback] ↔
      (¬ClauseTextHas doc (str "arbitration") ∧
       ¬ClauseTextHas doc (str "termination") ∧
       ¬(ClauseTextHas doc (str "penalty") ∨ ClauseTextHas doc (str "late fee")) ∧
       ¬(doc.effectiveDate = none ∨ doc.effectiveDate = some []))) := by
  have d1 : recArbitration ≠ recTermination := by decide
  have d2 : recArbitration ≠ recPenalty := by decide
  have d3 : recArbitration ≠ recMissingDate := by decide
  have d4 : recArbitration ≠ recFallback := by decide
  have d5 : recTermination ≠ recPenalty := by decide
  have d6 : recTermination ≠ recMissingDate := by decide
  have d7 : recTermination ≠ recFallback := by decide
  have d8 : recPenalty ≠ recMissingDate := by decide
  have d9 : recPenalty ≠ recFallback := by decide
  have d10 : recMissingDate ≠ recFallback := by decide
  simp only [← someClauseHas_iff, ← noEffectiveDate_iff]
  cases hb1 : someClauseHas doc (str "arbitration") <;>
    cases hb2 : someClauseHas doc (str "termination") <;>
    cases hb3 : someClauseHas doc (str "penalty") <;>
    cases hb4 : someClauseHas doc (str "late fee") <;>
    cases hb5 : noEffectiveDate doc <;>
    simp [generateRecommendations, hb1, hb2, hb3, hb4, hb5,
      d1, d2, d3, d4, d5, d6, d7, d8, d9, d10,
      d1.symm, d2.symm, d3.symm, d4.symm, d5.symm,
      d6.symm, d7.symm, d8.symm, d9.symm, d10.symm]

theorem lessorCue_iff (raw : Str) :
    lessorCue raw = true ↔
      (SubL (str "lessor") (lowerL raw) ∨ SubL (str "lessee") (lowerL raw)) := by
  simp [lessorCue, containsSub_iff]

theorem basicExtract_parties (now : Nat) (raw : Str) (lang : LanguageCode) (title : Str) :
    ((SubL (str "lessor") (lowerL raw) ∨ SubL (str "lessee") (lowerL raw)) →
      (basicExtract now raw lang title).parties =
        [⟨str "Lessor", .Lessor⟩, ⟨str "Lessee", .Lessee⟩]) ∧
    (¬(SubL (str "lessor") (lowerL raw) ∨ SubL (str "lessee") (lowerL raw)) →
      (basicExtract now raw lang title).parties =
        [⟨str "Party A", .PartyA⟩, ⟨str "Party B", .PartyB⟩]) := by
  constructor <;> intro h
  · have hc : lessorCue raw = true := (lessorCue_iff raw).mpr h
    simp [basicExtract, hc]
  · have hc : lessorCue raw = false := by
      cases hcb : lessorCue raw
      · rfl
      · exact absurd ((lessorCue_iff raw).mp hcb) h
    simp [basicExtract, hc]

theorem basicExtract_parties_length (now : Nat) (raw : Str) (lang : LanguageCode)
    (title : Str) : (basicExtract now raw lang title).parties.length = 2 := by
  cases hc : lessorCue raw <;> simp [basicExtract, hc]

theorem splitClauses_le (raw : Str) : (splitClauses raw).length ≤ 8 := by
  simp only [splitClauses, List.length_take]
  omega

theorem extractObligations_le (raw : Str) : (extractObligations raw).length ≤ 6 := by
  simp only [extractObligations, List.length_take]
  omega

theorem basicExtract_bounds (now : Nat) (raw : Str) (lang : LanguageCode) (title : Str) :
    (basicExtract now raw lang title).clauses.length ≤ 8 ∧
    (basicExtract now raw lang title).obligations.length ≤ 6 := by
  constructor
  · simpa [basicExtract, List.length_map, List.enum_length] using splitClauses_le raw
  · simpa [basicExtract] using extractObligations_le raw

/-- C5: with a nonempty `sampleId` present in the store and no file, the
result's document is exactly the stored sample (the extraction pipeline never
touches it: the equation holds for every file-independent input shape) and
the risk overview is recomputed from that sample by `computeRisk`. -/
theorem analyze_sample_bypass (store : Str → Option ParsedDocument) (now : Nat)
    (id : Str) (hint : Option LanguageCode) (doc : ParsedDocument)
    (hid : id ≠ []) (hstore : store id = some doc) :
    analyzeDocument store now ⟨none, some id, hint⟩ = .ok ⟨doc, computeRisk doc⟩ := by
  simp [analyzeDocument, hid, hstore]

theorem analyze_sample_bypass_witness :
    str "sample-en-rental" ≠ [] ∧
    sampleStore (str "sample-en-rental") = some sampleRentalDoc ∧
    analyzeDocument sampleStore 7 ⟨none, some (str "sample-en-rental"), none⟩ =
      .ok ⟨sampleRentalDoc, computeRisk sampleRentalDoc⟩ :=
  ⟨by decide, by decide,
   analyze_sample_bypass sampleStore 7 (str "sample-en-rental") none sampleRentalDoc
     (by decide) (by decide)⟩

/-- C6 counterexample: with `sampleId` set to the empty string and no file,
the code's truthiness test `if (input.sampleId)` treats the id as absent and
raises the input-validation error, although a sampleId *was* supplied and it
names no stored sample (so the claim's "exactly when neither is supplied"
and "not-found error for an unknown supplied id" both fail here). -/
theorem analyze_claim_six_counterexample : ¬claimSixStatement := by
  intro h
  obtain ⟨hval, -⟩ := h (fun _ => none) 0 ⟨none, some [], none⟩
  have h0 : analyzeDocument (fun _ => none) 0 ⟨none, some [], none⟩ =
      .error (str "No document input provided") := rfl
  have hcontra := hval.mp h0
  simp at hcontra

/-- C6 (amended): `analyzeDocument` fails with the input-validation error
exactly when no file is supplied and the sampleId is absent *or empty* (JS
truthiness of `input.sampleId`); fails with the not-found error exactly when
a nonempty sampleId names no stored sample; and these two messages are the
only failures — otherwise an `AnalysisResult` is produced, so no partial
result escapes a failure. -/
theorem analyze_failure_spec (store : Str → Option ParsedDocument) (now : Nat)
    (input : AnalyzeInput) :
    (analyzeDocument store now input = .error (str "No document input provided") ↔
      input.file = none ∧ (input.sampleId = none ∨ input.sampleId = some [])) ∧
    (analyzeDocument store now input = .error (str "Sample not found") ↔
      ∃ id, input.sampleId = some id ∧ id ≠ [] ∧ store id = none) ∧
    (∀ e, analyzeDocument store now input = .error e →
      e = str "No document input provided" ∨ e = str "Sample not found") := by
  obtain ⟨f?, sid?, hint⟩ := input
  have hne : str "No document input provided" ≠ str "Sample not found" := by decide
  rcases sid? with _ | id
  · rcases f? with _ | f <;> simp [analyzeDocument, hne]
  · by_cases hid : id = []
    · subst hid
      rcases f? with _ | f <;> simp [analyzeDocument, hne]
    · rcases hst : store id with _ | d <;> rcases f? with _ | f <;>
        simp [analyzeDocument, hid, hst, hne, hne.symm]

theorem analyze_failure_spec_witness :
    analyzeDocument sampleStore 0 ⟨none, none, none⟩ =
      .error (str "No document input provided") ∧
    analyzeDocument sampleStore 0 ⟨none, some (str "sample-xx"), none⟩ =
      .error (str "Sample not found") :=
  ⟨(analyze_failure_spec sampleStore 0 ⟨none, none, none⟩).1.mpr (by simp),
   (analyze_failure_spec sampleStore 0 ⟨none, some (str "sample-xx"), none⟩).2.1.mpr
     ⟨str "sample-xx", rfl, by decide, by decide⟩⟩

/-- C8: whenever `analyzeDocument` succeeds (for a store whose samples obey
the spec's document bounds), the returned document has at most 8 clauses and
6 obligations; and for every raw text the segmenter and obligation extractor
themselves keep at most 8 and 6 entries, regardless of input size. -/
theorem analyze_result_bounds (store : Str → Option ParsedDocument) (now : Nat)
    (input : AnalyzeInput) (res : AnalysisResult)
    (hstore : StoreBoundsOK store)
    (hok : analyzeDocument store now input = .ok res) :
    res.doc.clauses.length ≤ 8 ∧ res.doc.obligations.length ≤ 6 ∧
    ∀ raw : Str, (splitClauses raw).length ≤ 8 ∧ (extractObligations raw).length ≤ 6 := by
  have hall : ∀ raw : Str,
      (splitClauses raw).length ≤ 8 ∧ (extractObligations raw).length ≤ 6 :=
    fun raw => ⟨splitClauses_le raw, extractObligations_le raw⟩
  have hfile : ∀ (f : JsFile) (hint : Option LanguageCode),
      (parseUploaded now f hint).clauses.length ≤ 8 ∧
      (parseUploaded now f hint).obligations.length ≤ 6 := fun f hint =>
    basicExtract_bounds now (docText f)
      (hint.getD (detectLanguageBySample (uploadContent f))) f.name
  obtain ⟨f?, sid?, hint⟩ := input
  rcases sid? with _ | id
  · rcases f? with _ | f
    · simp [analyzeDocument] at hok
    · simp only [analyzeDocument, Except.ok.injEq] at hok
      subst hok
      exact ⟨(hfile f hint).1, (hfile f hint).2, hall⟩
  · by_cases hid : id = []
    · subst hid
      rcases f? with _ | f
      · simp [analyzeDocument] at hok
      · simp only [analyzeDocument, if_true, ite_true, Except.ok.injEq] at hok
        subst hok
        exact ⟨(hfile f hint).1, (hfile f hint).2, hall⟩
    · rcases hst : store id with _ | d
      · simp [analyzeDocument, hid, hst] at hok
      · simp only [analyzeDocument, if_neg hid, hst, Except.ok.injEq] at hok
        subst hok
        exact ⟨(hstore id d hst).1, (hstore id d hst).2, hall⟩

theorem sampleStore_boundsOK : StoreBoundsOK sampleStore := by
  intro id d h
  simp only [sampleStore] at h
  split at h
  · obtain rfl : sampleRentalDoc = d := by injection h
    decide
  · exact Option.noConfusion h

theorem sampleStore_partiesOK : StorePartiesOK sampleStore := by
  intro id d h
  simp only [sampleStore] at h
  split at h
  · obtain rfl : sampleRentalDoc = d := by injection h
    decide
  · exact Option.noConfusion h

theorem analyze_result_bounds_witness :
    StoreBoundsOK sampleStore ∧
    (parseUploaded 3 fileLessor none).clauses.length ≤ 8 ∧
    (parseUploaded 3 fileLessor none).obligations.length ≤ 6 :=
  have h := analyze_result_bounds sampleStore 3 ⟨some fileLessor, none, none⟩
    ⟨parseUploaded 3 fileLessor none, computeRisk (parseUploaded 3 fileLessor none)⟩
    sampleStore_boundsOK rfl
  ⟨sampleStore_boundsOK, h.1, h.2.1⟩

/-- C9: for a file input, the extracted parties are exactly the Lessor/Lessee
pair when the document text (after the empty-content fallback) contains
"lessor" or "lessee" case-insensitively, and exactly the generic
Party A/Party B pair otherwise; and every successful analysis (file or
sample, the latter for a store meeting the spec's two-party invariant)
returns at least two parties. -/
theorem analyze_parties_spec (now : Nat) :
    (∀ (f : JsFile) (hint : Option LanguageCode),
      ((SubL (str "lessor") (lowerL (docText f)) ∨
        SubL (str "lessee") (lowerL (docText f))) →
        (parseUploaded now f hint).parties =
          [⟨str "Lessor", .Lessor⟩, ⟨str "Lessee", .Lessee⟩]) ∧
      (¬(SubL (str "lessor") (lowerL (docText f)) ∨
         SubL (str "lessee") (lowerL (docText f))) →
        (parseUploaded now f hint).parties =
          [⟨str "Party A", .PartyA⟩, ⟨str "Party B", .PartyB⟩])) ∧
    (∀ (store : Str → Option ParsedDocument) (input : AnalyzeInput)
      (res : AnalysisResult), StorePartiesOK store →
      analyzeDocument store now input = .ok res → 2 ≤ res.doc.parties.length) := by
  have hfile : ∀ (f : JsFile) (hint' : Option LanguageCode),
      2 ≤ (parseUploaded now f hint').parties.length := by
    intro f hint'
    show 2 ≤ (basicExtract now (docText f)
      (hint'.getD (detectLanguageBySample (uploadContent f))) f.name).parties.length
    rw [basicExtract_parties_length]
  constructor
  · intro f hint
    exact basicExtract_parties now (docText f) _ f.name
  · intro store input res hstore hok
    obtain ⟨f?, sid?, hint⟩ := input
    rcases sid? with _ | id
    · rcases f? with _ | f
      · simp [analyzeDocument] at hok
      · simp only [analyzeDocument, Except.ok.injEq] at hok
        subst hok
        exact hfile f hint
    · by_cases hid : id = []
      · subst hid
        rcases f? with _ | f
        · simp [analyzeDocument] at hok
        · simp only [analyzeDocument, if_true, ite_true, Except.ok.injEq] at hok
          subst hok
          exact hfile f hint
      · rcases hst : store id with _ | d
        · simp [analyzeDocument, hid, hst] at hok
        · simp only [analyzeDocument, if_neg hid, hst, Except.ok.injEq] at hok
          subst hok
          exact hstore id d hst

theorem analyze_parties_witness :
    (parseUploaded 5 fileLessor none).parties =
      [⟨str "Lessor", .Lessor⟩, ⟨str "Lessee", .Lessee⟩] ∧
    2 ≤ (parseUploaded 5 fileLessor none).parties.length :=
  have h := analyze_parties_spec 5
  ⟨(h.1 fileLessor none).1
    (Or.inl ⟨str "the ",
      str " grants use of the premises. the lessee shall pay rent.", by decide⟩),
   h.2 sampleStore ⟨some fileLessor, none, none⟩
     ⟨parseUploaded 5 fileLessor none, computeRisk (parseUploaded 5 fileLessor none)⟩
     sampleStore_partiesOK rfl⟩

/-- C10 counterexample: with the empty-string `sampleId` (a supplied value
that JS truthiness treats as absent) and a file also supplied, the file *is*
analyzed, so two different file contents yield different results — the
claimed file-independence fails. -/
theorem analyze_claim_ten_counterexample : ¬claimTenStatement := by
  intro h
  have h2 := (h (fun _ => none) 0 0 fileLessor filePlain [] none).1
  have h3 := congrArg
    (fun r : Except Str AnalysisResult =>
      match r with
      | .ok a => a.doc.parties
      | .error _ => []) h2
  exact absurd h3 (by decide)

/-- C10 (amended): when a *nonempty* `sampleId` is supplied together with a
file, sample mode takes precedence: the result equals the file-less run for
the same sampleId, for any file, timestamp and language hint — so the file's
contents have no influence on the output. -/
theorem analyze_sample_precedence (store : Str → Option ParsedDocument)
    (now now2 : Nat) (f : JsFile) (id : Str)
    (hint hint2 : Option LanguageCode) (hid : id ≠ []) :
    analyzeDocument store now ⟨some f, some id, hint⟩ =
      analyzeDocument store now2 ⟨none, some id, hint2⟩ := by
  simp [analyzeDocument, hid]

theorem analyze_sample_precedence_witness :
    str "sample-en-rental" ≠ [] ∧
    analyzeDocument sampleStore 1
        ⟨some fileLessor, some (str "sample-en-rental"), none⟩ =
      analyzeDocument sampleStore 2
        ⟨none, some (str "sample-en-rental"), some .en⟩ :=
  ⟨by decide,
   analyze_sample_precedence sampleStore 1 2 fileLessor (str "sample-en-rental")
     none (some .en) (by decide)⟩

theorem computeRisk_byCategory_witness :
    (computeRisk sampleRentalDoc).byCategory.map CategoryScore.category =
      [.Financial, .Legal, .Compliance, .Termination] ∧
    (⟨.Financial, 85⟩ : CategoryScore) ∈ (computeRisk sampleRentalDoc).byCategory ∧
    (85 : Nat) = claimAverageScore (weightsFor sampleRentalDoc.clauses .Financial) ∧
    ClauseCategory.Financial ≠ .General ∧ (85 : Nat) ≤ 100 :=
  have h := computeRisk_byCategory_spec sampleRentalDoc
  have hmem : (⟨.Financial, 85⟩ : CategoryScore) ∈
      (computeRisk sampleRentalDoc).byCategory := by decide
  have h2 := h.2 ⟨.Financial, 85⟩ hmem
  ⟨h.1, hmem, h2.1, h2.2.1, h2.2.2.1⟩
